import Mathlib

/-!
Verification of the hockey_api_scraper pipeline (listing extraction, detail
parsing, retrying fetch, robots gating and field-level reconciliation).

The Python sources are shallowly embedded: strings are `List Char`
(written `Str`), regular-expression rewrites of `clean_text` become explicit
character-level state machines, HTML documents are abstracted to the exact
fields the selectors read, and the stateful run loop becomes a pure function
from an existing record and a scraped item to an updated record.
-/

namespace Hcszlh

set_option maxRecDepth 100000

/-- Python strings, modelled as character lists. -/
abbrev Str := List Char

/-- Characters matched by the `[ \t]` class in `clean_text`'s first regex. -/
def isBlankChar (c : Char) : Bool := c == ' ' || c == '\t'

/-- Unicode whitespace as stripped by Python's `str.strip()` (and used by
`str.isspace`): ASCII whitespace, the C1 separators, NEL, NBSP and the
Unicode space-category code points. -/
def isWsChar (c : Char) : Bool :=
  c == ' ' || c == '\t' || c == '\n' || c == '\r' ||
  c == '\x0b' || c == '\x0c' ||
  (0x1c ≤ c.val && c.val ≤ 0x1f) || c.val == 0x85 || c.val == 0xa0 ||
  c.val == 0x1680 || (0x2000 ≤ c.val && c.val ≤ 0x200a) ||
  c.val == 0x2028 || c.val == 0x2029 || c.val == 0x202f ||
  c.val == 0x205f || c.val == 0x3000

/-- `text.replace("\r\n", "\n").replace("\r", "\n")` from `clean_text`
(scraper.py line 96).  The Boolean state records whether the previous
character was a carriage return, so that the newline of a CRLF pair is not
emitted twice. -/
def normNLAux : Bool → Str → Str
  | _, [] => []
  | afterCR, c :: rest =>
    if c = '\r' then '\n' :: normNLAux true rest
    else if c = '\n' then
      if afterCR then normNLAux false rest
      else '\n' :: normNLAux false rest
    else c :: normNLAux false rest

def normNewlines (l : Str) : Str := normNLAux false l

/-- `re.sub(r"[ \t]+", " ", text)` from `clean_text` (scraper.py line 97):
every maximal run of spaces/tabs collapses to a single space.  The Boolean
state records whether we are inside a blank run. -/
def collapseSpacesAux : Bool → Str → Str
  | _, [] => []
  | prevBlank, c :: rest =>
    if isBlankChar c then
      if prevBlank then collapseSpacesAux true rest
      else ' ' :: collapseSpacesAux true rest
    else c :: collapseSpacesAux false rest

def collapseSpaces (l : Str) : Str := collapseSpacesAux false l

/-- `re.sub(r"\n{3,}", "\n\n", text)` from `clean_text` (scraper.py line 98):
runs of three or more newlines collapse to exactly two.  The counter tracks
how many newlines of the current run have been emitted (capped at 2). -/
def collapseNLAux : Nat → Str → Str
  | _, [] => []
  | k, c :: rest =>
    if c = '\n' then
      if k < 2 then '\n' :: collapseNLAux (k + 1) rest
      else collapseNLAux k rest
    else c :: collapseNLAux 0 rest

def collapseNL (l : Str) : Str := collapseNLAux 0 l

/-- Python `str.strip()`: drop leading and trailing whitespace. -/
def pyStrip (l : Str) : Str := (l.dropWhile isWsChar).rdropWhile isWsChar

/-- `clean_text` (scraper.py lines 95-99): normalize newlines, collapse
horizontal whitespace, collapse blank-line runs, strip. -/
def clean_text (l : Str) : Str := pyStrip (collapseNL (collapseSpaces (normNewlines l)))

/-! ## Reconciliation predicates (run_scrape.py) -/

/-- `is_missing` (run_scrape.py lines 26-27): `None` or a string that is
empty after stripping. -/
def is_missing : Option Str → Bool
  | none => true
  | some s => (pyStrip s).isEmpty

/-- Python truthiness of an optional string: non-`None` and non-empty. -/
def truthy : Option Str → Bool
  | none => false
  | some s => !s.isEmpty

/-- `should_replace_text` (run_scrape.py lines 30-35). -/
def should_replace_text (existing newv : Option Str) : Bool :=
  if is_missing newv then false
  else if is_missing existing then true
  else decide ((newv.getD []).length > (existing.getD []).length + 80)

/-- Contiguous-substring test, modelling Python's `in` on strings. -/
def containsSub (pat : Str) : Str → Bool
  | [] => pat.isEmpty
  | c :: rest => pat.isPrefixOf (c :: rest) || containsSub pat rest

def upGalPat : Str := "/Upload/Gallery/".data
def upPat : Str := "/Upload/".data

/-- `is_good_image` (run_scrape.py lines 38-43): case-sensitive substring
check for the site's `/Upload/Gallery/` and `/Upload/` asset paths. -/
def is_good_image (url : Option Str) : Bool :=
  if is_missing url then false
  else containsSub upGalPat (url.getD []) || containsSub upPat (url.getD [])

/-- `should_replace_image` (run_scrape.py lines 46-65). -/
def should_replace_image (existing newv : Option Str) : Bool :=
  if is_missing newv then false
  else if is_missing existing then true
  else if is_good_image newv && !(is_good_image existing) then true
  else if decide (pyStrip (newv.getD []) ≠ pyStrip (existing.getD [])) && is_good_image newv then true
  else false

/-! ## Listing extraction (scraper.py lines 115-167) -/

/-- `BASE` (scraper.py line 14). -/
def BASEurl : Str := "https://www.hockeyslovakia.sk".data

/-- The article-path literal of the listing selectors. -/
def artPre : Str := "/sk/article/".data

/-- `urljoin(BASE, href)` for the cases the scraper exercises: a
path-absolute reference is resolved against the origin of the base URL
(which carries no path), anything else is returned as-is (the scraper only
joins path-absolute hrefs and already absolute image URLs). -/
def urljoinBase (rel : Str) : Str :=
  match rel with
  | '/' :: rest => BASEurl ++ '/' :: rest
  | r => r

/-- An anchor element as seen by the listing selectors: its raw `href` and
the background-image URL its inline `style` yields (the result of
`_extract_bg_image_from_style`), plus which CSS selectors it matches. -/
structure Anchor where
  href : Str
  /-- result of `_extract_bg_image_from_style(a.get("style", ""))` -/
  bg : Option Str
  /-- matches `article .overlay-container a.article-item` -/
  inTile : Bool
  /-- matches `a.article-item` -/
  isArticleItem : Bool
deriving DecidableEq

/-- A listing candidate: `{"origin_url": ..., "image_url": ...}`. -/
structure Candidate where
  origin_url : Str
  image_url : Option Str
deriving DecidableEq

/-- Anchors matched by the strict pass-1 selector
`article .overlay-container a.article-item[href^="/sk/article/"]`. -/
def selectStrict (anchors : List Anchor) : List Anchor :=
  anchors.filter fun a => a.inTile && a.isArticleItem && artPre.isPrefixOf a.href

/-- Anchors matched by the fallback pass-2 selector
`a.article-item[href^="/sk/article/"]`. -/
def selectLoose (anchors : List Anchor) : List Anchor :=
  anchors.filter fun a => a.isArticleItem && artPre.isPrefixOf a.href

/-- Per-anchor candidate construction (scraper.py lines 129-140): strip the
href, re-check the `/sk/article/` path shape, resolve both URLs. -/
def mkCandidate (a : Anchor) : Option Candidate :=
  let href := pyStrip a.href
  if artPre.isPrefixOf href then
    some ⟨urljoinBase href, a.bg.map urljoinBase⟩
  else none

/-- The `candidates` list before dedupe: pass 1, else pass 2. -/
def candidatesOf (anchors : List Anchor) : List Candidate :=
  let p1 := (selectStrict anchors).filterMap mkCandidate
  if p1.isEmpty then (selectLoose anchors).filterMap mkCandidate else p1

/-- The `seen`-set dedupe loop (scraper.py lines 157-165): keep the first
occurrence of each `origin_url`, preserving order. -/
def dedupeKeepFirst : List Candidate → List Str → List Candidate
  | [], _ => []
  | c :: rest, seen =>
    if c.origin_url ∈ seen then dedupeKeepFirst rest seen
    else c :: dedupeKeepFirst rest (c.origin_url :: seen)

/-- Default of `SCRAPE_MAX_ARTICLES_PER_RUN` (scraper.py line 38). -/
def MAX_PER_RUN : Nat := 10

/-- `extract_listing_items` (scraper.py lines 115-167), parametrised by the
configured per-run maximum. -/
def extractListingWith (anchors : List Anchor) (maxPerRun : Nat) : List Candidate :=
  (dedupeKeepFirst (candidatesOf anchors) []).take maxPerRun

def extract_listing_items (anchors : List Anchor) : List Candidate :=
  extractListingWith anchors MAX_PER_RUN

/-- Modelled from the spec: the `isLikelyArticleUrl` predicate §4.3 claims
the extractor applies — path prefix match, a minimum slug length, and a
denylist of non-article slugs.  (No such slug-length or denylist check
exists in scraper.py; this definition exists to compare the spec's words
with the code.) -/
def isLikelyArticleUrl_spec (minSlugLen : Nat) (denylist : List Str) (url : Str) : Bool :=
  let pre := BASEurl ++ artPre
  pre.isPrefixOf url &&
    (decide (minSlugLen ≤ (url.drop pre.length).length)) &&
    !(denylist.contains (url.drop pre.length))

/-! ## Retrying fetch (scraper.py lines 65-74, tenacity policy) -/

/-- The observable outcome of one HTTP attempt: a network-level failure or a
response with a status code and body. -/
inductive Outcome where
  | netErr : Outcome
  | resp (status : Nat) (body : Str) : Outcome
deriving DecidableEq

inductive FetchErr where
  | network : FetchErr
  | http (status : Nat) : FetchErr
  /-- model artifact: the supplied outcome stream ran out -/
  | noOutcome : FetchErr
deriving DecidableEq

inductive FRes where
  | ok (body : Str) : FRes
  | err (e : FetchErr) : FRes
deriving DecidableEq

/-- One attempt of `fetch_html`'s body (scraper.py lines 70-74): a status of
400 or more raises, otherwise the body is returned. -/
def attemptOnce : Outcome → FRes
  | .netErr => .err .network
  | .resp s b => if 400 ≤ s then .err (.http s) else .ok b

/-- `wait_exponential(multiplier=1, min=1, max=8)`: the wait before retrying
after attempt `n`, starting at 1 and capped at 8. -/
def backoffWait (n : Nat) : Nat := min 8 (max 1 (2 ^ (n - 1)))

/-- The trace of a fetch: final result, number of attempts made, and the
backoff waits observed between attempts. -/
structure FetchTrace where
  result : FRes
  attempts : Nat
  waits : List Nat
deriving DecidableEq

/-- The tenacity retry loop around `fetch_html`: `outs` supplies the outcome
of each successive attempt, `n` is the 1-based attempt number, retrying on
`requests.RequestException` and `ScrapeError` until `stop_after_attempt
maxA`. -/
def fetchLoop (maxA : Nat) : List Outcome → Nat → FetchTrace
  | [], _ => ⟨.err .noOutcome, 0, []⟩
  | o :: rest, n =>
    match attemptOnce o with
    | .ok b => ⟨.ok b, 1, []⟩
    | .err e =>
      if maxA ≤ n then ⟨.err e, 1, []⟩
      else
        let t := fetchLoop maxA rest (n + 1)
        ⟨t.result, t.attempts + 1, backoffWait n :: t.waits⟩

/-- `fetch_html` under `stop_after_attempt(3)` (scraper.py lines 65-74). -/
def fetch_html (outs : List Outcome) : FetchTrace := fetchLoop 3 outs 1

/-! ## Detail parsing (scraper.py lines 203-240) -/

/-- A content container as the selectors see it: the `get_text` of its
`p, h2, h3, li` descendants in document order, and the whole container's
`get_text("\n", strip=True)`. -/
structure ContentNode where
  nodeTexts : List Str
  allText : Str
deriving DecidableEq

/-- A detail page abstracted to the fields `parse_article_detail` reads.
`h1_text` is the `get_text(" ", strip=True)` of the first `h1`, present
exactly when `soup.select_one("h1")` is truthy; the three content fields
are the containers found by the three selectors of lines 215-219;
`detailImage` is the result of `extract_detail_image_url`. -/
structure DetailPage where
  h1_text : Option Str
  metaBlock : Option Str
  contentMain : Option ContentNode
  contentCol : Option ContentNode
  contentStatic : Option ContentNode
  detailImage : Option Str
deriving DecidableEq

inductive ScrapeErr where
  | missingTitle (url : Str)
  | missingContainer (url : Str)
  | contentTooShort (url : Str)
deriving DecidableEq

/-- The dict returned by `parse_article_detail`. -/
structure DetailData where
  title : Str
  meta_text : Option Str
  image_url : Option Str
  content_text : Str
deriving DecidableEq

inductive PRes where
  | ok (d : DetailData) : PRes
  | err (e : ScrapeErr) : PRes
deriving DecidableEq

/-- Python `"\n".join(parts)`. -/
def joinNL : List Str → Str
  | [] => []
  | [x] => x
  | x :: y :: rest => x ++ '\n' :: joinNL (y :: rest)

/-- The content-container fallback chain (scraper.py lines 215-219). -/
def pickContent (p : DetailPage) : Option ContentNode :=
  match p.contentMain with
  | some c => some c
  | none =>
    match p.contentCol with
    | some c => some c
    | none => p.contentStatic

/-- Body-text assembly (scraper.py lines 223-229): join the non-empty node
texts with newlines, else fall back to the container's whole text; clean
either way. -/
def assembled_body (content : ContentNode) : Str :=
  let parts := content.nodeTexts.filter fun t => !t.isEmpty
  if !parts.isEmpty then clean_text (joinNL parts) else clean_text content.allText

/-- `parse_article_detail` (scraper.py lines 203-240). -/
def parse_article_detail (p : DetailPage) (url : Str) : PRes :=
  match p.h1_text with
  | none => .err (.missingTitle url)
  | some h1t =>
    let title := clean_text h1t
    let metaText := p.metaBlock.map clean_text
    match pickContent p with
    | none => .err (.missingContainer url)
    | some content =>
      let content_text := assembled_body content
      if content_text.length < 150 then .err (.contentTooShort url)
      else .ok ⟨title, metaText, p.detailImage, content_text⟩

/-! ## The listing scrape loop (scraper.py lines 243-278) -/

/-- An item appended by `scrape_listing`: the parsed detail data plus the
origin URL and category. -/
structure RunItem where
  title : Str
  meta_text : Option Str
  image_url : Option Str
  content_text : Str
  origin_url : Str
  category : Str
deriving DecidableEq

/-- The per-candidate loop of `scrape_listing` (scraper.py lines 253-276):
skip robots-disallowed URLs before fetching, look up the combined
fetch-and-parse outcome of allowed URLs (`detailOf`; a `ScrapeError` from
either step is caught and skipped), fall back to the listing thumbnail when
the detail page has no image.  Returns the collected items and the list of
URLs that reached the fetch step, both in document order. -/
def scrapeLoop (allowed : Str → Bool) (detailOf : Str → PRes) (category : Str) :
    List Candidate → List RunItem × List Str
  | [] => ([], [])
  | c :: rest =>
    if allowed c.origin_url then
      let t := scrapeLoop allowed detailOf category rest
      match detailOf c.origin_url with
      | .ok d =>
        let img := if !truthy d.image_url && truthy c.image_url then c.image_url else d.image_url
        (⟨d.title, d.meta_text, img, d.content_text, c.origin_url, category⟩ :: t.1,
          c.origin_url :: t.2)
      | .err _ => (t.1, c.origin_url :: t.2)
    else scrapeLoop allowed detailOf category rest

/-- `True` when the candidate's detail fetch-and-parse succeeded. -/
def isOkP : PRes → Bool
  | .ok _ => true
  | .err _ => false

/-! ## Reconciliation of an existing record (run_scrape.py lines 117-149) -/

/-- A stored `Article` row, restricted to the fields the update loop reads,
with `scraped_at` as an abstract timestamp. -/
structure ArticleRec where
  category : Option Str
  title : Option Str
  meta_text : Option Str
  image_url : Option Str
  content_text : Option Str
  scraped_at : Nat
deriving DecidableEq

/-- The scraped item dict consumed by the update loop. -/
structure ScrapedItem where
  category : Option Str
  title : Option Str
  meta_text : Option Str
  image_url : Option Str
  content_text : Option Str
deriving DecidableEq

/-- The existing-record branch of `run_scrape` (run_scrape.py lines
117-149): each field is updated under its own condition, `changed` is their
disjunction, and `scraped_at` is stamped with `now` exactly when `changed`.
Returns the updated record and the `changed` flag. -/
def reconcile_existing (ex : ArticleRec) (item : ScrapedItem) (now : Nat) :
    ArticleRec × Bool :=
  let c1 := is_missing ex.category && truthy item.category
  let c2 := is_missing ex.title && truthy item.title
  let c3 := is_missing ex.meta_text && truthy item.meta_text
  let c4 := should_replace_image ex.image_url item.image_url
  let c5 := should_replace_text ex.content_text item.content_text
  let changed := c1 || c2 || c3 || c4 || c5
  ({ category := if c1 then item.category else ex.category
     title := if c2 then item.title else ex.title
     meta_text := if c3 then item.meta_text else ex.meta_text
     image_url := if c4 then item.image_url else ex.image_url
     content_text :=
       if c5 then (if truthy item.content_text then item.content_text else ex.content_text)
       else ex.content_text
     scraped_at := if changed then now else ex.scraped_at }, changed)

/-! ## Claim theorems -/

/-- C2: `content_text` is replaced iff the existing value is missing/empty
or the new text's length exceeds the existing one's by strictly more than
80 characters; a missing new text never replaces; length 500 → 560 is a
no-op on the field while 500 → 600 replaces it. -/
theorem c2_content_text_replacement_policy (e n : Option Str) :
    (should_replace_text e n = true ↔
      (is_missing n = false ∧
        (is_missing e = true ∨ (n.getD []).length > (e.getD []).length + 80)))
    ∧ (is_missing n = true → should_replace_text e n = false)
    ∧ should_replace_text (some (List.replicate 500 'a')) (some (List.replicate 560 'a')) = false
    ∧ should_replace_text (some (List.replicate 500 'a')) (some (List.replicate 600 'a')) = true := by
  refine ⟨?_, ?_, by decide, by decide⟩
  · unfold should_replace_text
    split_ifs with h1 h2 <;> simp_all
  · intro h; simp [should_replace_text, h]

theorem c2_witness : should_replace_text (some ['a']) none = false :=
  (c2_content_text_replacement_policy (some ['a']) none).2.1 rfl

/-- C3 as stated is false: `is_good_image` matches the site's asset paths
case-sensitively (`/Upload/Gallery/`, `/Upload/`), so the claim's concrete
example with a lowercase `upload/gallery` path is NOT classified
high-quality and the field is not replaced. -/
theorem c3_counterexample :
    should_replace_image (some "https://site/misc/banner.png".data)
      (some "https://site/upload/gallery/x.jpg".data) = false := by decide

/-- C3 (amended): `image_url` is replaced exactly when the existing value is
missing/empty, or the new URL is classified high-quality (case-sensitive
`/Upload/Gallery/` or `/Upload/` path) and the existing one is not, or the
two differ after stripping and the new one is high-quality; a missing new
value never replaces, and a high-quality existing image is never discarded
for a non-qualifying new one.  The claim's example replaces once its path
uses the site's actual capitalised `/Upload/Gallery/` form. -/
theorem c3_image_replacement_policy (e n : Option Str) :
    (should_replace_image e n = true ↔
      (is_missing n = false ∧
        (is_missing e = true ∨
          (is_good_image n = true ∧ is_good_image e = false) ∨
          (pyStrip (n.getD []) ≠ pyStrip (e.getD []) ∧ is_good_image n = true))))
    ∧ (is_missing n = true → should_replace_image e n = false)
    ∧ (is_good_image e = true → is_good_image n = false → should_replace_image e n = false)
    ∧ should_replace_image (some "https://site/misc/banner.png".data)
        (some "https://site/Upload/Gallery/x.jpg".data) = true := by
  refine ⟨?_, ?_, ?_, by decide⟩
  · unfold should_replace_image
    split_ifs with h1 h2 h3 h4 <;> simp_all
  · intro h; simp [should_replace_image, h]
  · intro hge hgn
    have hme : is_missing e = false := by
      by_contra hc
      simp [is_good_image, eq_true_of_ne_false hc] at hge
    unfold should_replace_image
    split_ifs with h1 h2 h3 h4 <;> simp_all

theorem c3_witness : should_replace_image (some "https://x/Upload/a.jpg".data)
    (some "https://x/other.jpg".data) = false :=
  (c3_image_replacement_policy (some "https://x/Upload/a.jpg".data)
    (some "https://x/other.jpg".data)).2.2.1 (by decide) (by decide)

/-- C4: whenever at least one field changes, `scraped_at` is stamped with
the run's `now`; when nothing changes the record is returned completely
untouched; consequently `scraped_at` never decreases across runs whose
`now` is at least the stored timestamp. -/
theorem c4_scraped_at_frame (ex : ArticleRec) (item : ScrapedItem) (now : Nat) :
    ((reconcile_existing ex item now).2 = true →
      (reconcile_existing ex item now).1.scraped_at = now)
    ∧ ((reconcile_existing ex item now).2 = false →
      (reconcile_existing ex item now).1 = ex)
    ∧ (ex.scraped_at ≤ now →
      ex.scraped_at ≤ (reconcile_existing ex item now).1.scraped_at) := by
  refine ⟨?_, ?_, ?_⟩ <;> simp only [reconcile_existing]
  · intro h
    simp only [h, if_true]
  · intro h
    simp only [Bool.or_eq_false_iff] at h
    obtain ⟨⟨⟨⟨h1, h2⟩, h3⟩, h4⟩, h5⟩ := h
    simp [h1, h2, h3, h4, h5]
  · intro h
    split <;> simp [h]

theorem c4_witness :
    (reconcile_existing ⟨some "extraliga".data, none, none, none, some "body".data, 3⟩
      ⟨none, some "Title".data, none, none, none⟩ 5).2 = true
    ∧ (reconcile_existing ⟨some "extraliga".data, none, none, none, some "body".data, 3⟩
      ⟨none, some "Title".data, none, none, none⟩ 5).1.scraped_at = 5 :=
  ⟨by decide,
    (c4_scraped_at_frame ⟨some "extraliga".data, none, none, none, some "body".data, 3⟩
      ⟨none, some "Title".data, none, none, none⟩ 5).1 (by decide)⟩

/-- C6: when a detail page has a title and a content container but the
assembled, normalized body text is shorter than the fixed 150-character
threshold, `parse_article_detail` fails with the content-too-short error
and produces no item. -/
theorem c6_content_length_gate (p : DetailPage) (url h1t : Str) (c : ContentNode)
    (hh : p.h1_text = some h1t) (hc : pickContent p = some c)
    (hshort : (assembled_body c).length < 150) :
    parse_article_detail p url = .err (.contentTooShort url) := by
  simp [parse_article_detail, hh, hc, hshort]

theorem c6_witness :
    (assembled_body ⟨[List.replicate 120 'a'], []⟩).length = 120
    ∧ parse_article_detail
        ⟨some "T".data, none, some ⟨[List.replicate 120 'a'], []⟩, none, none, none⟩ "u".data
      = .err (.contentTooShort "u".data) :=
  ⟨by decide,
    c6_content_length_gate _ "u".data "T".data ⟨[List.replicate 120 'a'], []⟩
      rfl rfl (by decide)⟩

/-- C7 as stated is false: a present but textless top-level heading (e.g.
`<h1> </h1>`, a truthy bs4 element whose stripped `get_text` is empty)
yields a successfully parsed item whose title is the empty string — the
code never checks that the cleaned heading text is non-empty. -/
theorem c7_counterexample :
    parse_article_detail
      ⟨some [], none, some ⟨[List.replicate 200 'a'], []⟩, none, none, none⟩ "u".data
      = .ok ⟨[], none, none, List.replicate 200 'a'⟩ := by decide

/-- C7 (amended): with no top-level heading, `parse_article_detail` fails
with the missing-title error and produces no item; when a heading is
present, a successfully returned item's title is exactly the heading's
cleaned text (which may be empty when the heading has no text). -/
theorem c7_title_policy (p : DetailPage) (url : Str) :
    (p.h1_text = none → parse_article_detail p url = .err (.missingTitle url))
    ∧ (∀ h1t d, p.h1_text = some h1t → parse_article_detail p url = .ok d →
        d.title = clean_text h1t) := by
  constructor
  · intro h
    simp [parse_article_detail, h]
  · intro h1t d hh hok
    simp only [parse_article_detail, hh] at hok
    cases hpc : pickContent p with
    | none => rw [hpc] at hok; simp at hok
    | some c =>
      rw [hpc] at hok
      by_cases hlen : (assembled_body c).length < 150
      · simp [hlen] at hok
      · simp only [hlen, if_false] at hok
        cases hok
        rfl

theorem c7_witness :
    parse_article_detail ⟨none, none, some ⟨[List.replicate 200 'a'], []⟩, none, none, none⟩
      "u".data = .err (.missingTitle "u".data) :=
  (c7_title_policy ⟨none, none, some ⟨[List.replicate 200 'a'], []⟩, none, none, none⟩
    "u".data).1 rfl

/-- Within the retry loop, the number of attempts made never exceeds the
remaining attempt budget. -/
theorem backoffWait_bounds (n : Nat) : 1 ≤ backoffWait n ∧ backoffWait n ≤ 8 := by
  unfold backoffWait
  exact ⟨Nat.le_min.2 ⟨by norm_num, Nat.le_max_left 1 _⟩, Nat.min_le_left 8 _⟩

theorem fetchLoop_cons_ok {maxA n : Nat} {o : Outcome} {rest : List Outcome} {b : Str}
    (h : attemptOnce o = .ok b) : fetchLoop maxA (o :: rest) n = ⟨.ok b, 1, []⟩ := by
  simp [fetchLoop, h]

theorem fetchLoop_cons_err_stop {maxA n : Nat} {o : Outcome} {rest : List Outcome}
    {e : FetchErr} (h : attemptOnce o = .err e) (hs : maxA ≤ n) :
    fetchLoop maxA (o :: rest) n = ⟨.err e, 1, []⟩ := by
  simp [fetchLoop, h, hs]

theorem fetchLoop_cons_err_go {maxA n : Nat} {o : Outcome} {rest : List Outcome}
    {e : FetchErr} (h : attemptOnce o = .err e) (hs : ¬maxA ≤ n) :
    fetchLoop maxA (o :: rest) n
      = ⟨(fetchLoop maxA rest (n + 1)).result, (fetchLoop maxA rest (n + 1)).attempts + 1,
          backoffWait n :: (fetchLoop maxA rest (n + 1)).waits⟩ := by
  simp [fetchLoop, h, hs]

theorem fetchLoop_attempts_le (maxA : Nat) (outs : List Outcome) :
    ∀ n, n ≤ maxA → (fetchLoop maxA outs n).attempts ≤ maxA + 1 - n := by
  induction outs with
  | nil => intro n _; simp [fetchLoop]
  | cons o rest ih =>
    intro n hn
    cases hao : attemptOnce o with
    | ok b =>
      rw [fetchLoop_cons_ok hao]
      show (1 : Nat) ≤ maxA + 1 - n
      omega
    | err e =>
      by_cases hstop : maxA ≤ n
      · rw [fetchLoop_cons_err_stop hao hstop]
        show (1 : Nat) ≤ maxA + 1 - n
        omega
      · rw [fetchLoop_cons_err_go hao hstop]
        show (fetchLoop maxA rest (n + 1)).attempts + 1 ≤ maxA + 1 - n
        have := ih (n + 1) (Nat.lt_of_not_le hstop)
        omega

/-- Every wait emitted by the retry loop is a clamped exponential value. -/
theorem fetchLoop_waits_bounds (maxA : Nat) (outs : List Outcome) :
    ∀ n w, w ∈ (fetchLoop maxA outs n).waits → 1 ≤ w ∧ w ≤ 8 := by
  induction outs with
  | nil => intro n w hw; simp [fetchLoop] at hw
  | cons o rest ih =>
    intro n w hw
    cases hao : attemptOnce o with
    | ok b => rw [fetchLoop_cons_ok hao] at hw; simp at hw
    | err e =>
      by_cases hstop : maxA ≤ n
      · rw [fetchLoop_cons_err_stop hao hstop] at hw; simp at hw
      · rw [fetchLoop_cons_err_go hao hstop] at hw
        have hw' : w ∈ backoffWait n :: (fetchLoop maxA rest (n + 1)).waits := hw
        rcases List.mem_cons.1 hw' with rfl | h
        · exact backoffWait_bounds n
        · exact ih (n + 1) w h

/-- C5: the fetch retries network-level failures and HTTP ≥ 400 responses
up to 3 total attempts with exponential backoff starting at 1 and capped at
8; two failures followed by a success return the successful body on the
third attempt, and three failures propagate the last fetch error with
exactly 3 attempts — the result never depends on a fourth outcome. -/
theorem c5_fetch_retry_policy :
    (∀ outs : List Outcome, (fetch_html outs).attempts ≤ 3)
    ∧ (∀ (outs : List Outcome) (w : Nat), w ∈ (fetch_html outs).waits → 1 ≤ w ∧ w ≤ 8)
    ∧ backoffWait 1 = 1
    ∧ (∀ (o1 o2 o3 : Outcome) (rest : List Outcome) (e1 e2 : FetchErr) (b : Str),
        attemptOnce o1 = .err e1 → attemptOnce o2 = .err e2 → attemptOnce o3 = .ok b →
        fetch_html (o1 :: o2 :: o3 :: rest) = ⟨.ok b, 3, [1, 2]⟩)
    ∧ (∀ (o1 o2 o3 : Outcome) (rest : List Outcome) (e1 e2 e3 : FetchErr),
        attemptOnce o1 = .err e1 → attemptOnce o2 = .err e2 → attemptOnce o3 = .err e3 →
        fetch_html (o1 :: o2 :: o3 :: rest) = ⟨.err e3, 3, [1, 2]⟩) := by
  refine ⟨?_, ?_, by decide, ?_, ?_⟩
  · intro outs
    exact fetchLoop_attempts_le 3 outs 1 (by norm_num)
  · intro outs w hw
    exact fetchLoop_waits_bounds 3 outs 1 w hw
  · intro o1 o2 o3 rest e1 e2 b h1 h2 h3
    simp [fetch_html, fetchLoop, h1, h2, h3, backoffWait]
  · intro o1 o2 o3 rest e1 e2 e3 h1 h2 h3
    simp [fetch_html, fetchLoop, h1, h2, h3, backoffWait]

theorem c5_witness :
    fetch_html [.netErr, .resp 500 [], .resp 200 "ok".data] = ⟨.ok "ok".data, 3, [1, 2]⟩
    ∧ fetch_html [.netErr, .resp 503 [], .netErr, .resp 200 "ok".data]
      = ⟨.err .network, 3, [1, 2]⟩ :=
  ⟨c5_fetch_retry_policy.2.2.2.1 .netErr (.resp 500 []) (.resp 200 "ok".data) []
      .network (.http 500) "ok".data rfl (by decide) (by decide),
    c5_fetch_retry_policy.2.2.2.2 .netErr (.resp 503 []) .netErr [.resp 200 "ok".data]
      .network (.http 503) .network rfl (by decide) rfl⟩

/-- Every URL that reaches the fetch step of the listing loop was allowed
by the robots policy. -/
theorem scrapeLoop_fetched_allowed (allowed : Str → Bool) (detailOf : Str → PRes)
    (cat : Str) (cands : List Candidate) :
    ∀ v ∈ (scrapeLoop allowed detailOf cat cands).2, allowed v = true := by
  induction cands with
  | nil => intro v hv; simp [scrapeLoop] at hv
  | cons c rest ih =>
    intro v hv
    simp only [scrapeLoop] at hv
    by_cases ha : allowed c.origin_url
    · simp only [ha, if_true] at hv
      cases hd : detailOf c.origin_url with
      | ok d =>
        rw [hd] at hv
        simp only [List.mem_cons] at hv
        rcases hv with rfl | hv
        · exact ha
        · exact ih v hv
      | err e =>
        rw [hd] at hv
        simp only [List.mem_cons] at hv
        rcases hv with rfl | hv
        · exact ha
        · exact ih v hv
    · simp only [ha, if_false] at hv
      exact ih v hv

/-- Every item collected by the listing loop originates from an allowed
candidate URL. -/
theorem scrapeLoop_items_allowed (allowed : Str → Bool) (detailOf : Str → PRes)
    (cat : Str) (cands : List Candidate) :
    ∀ it ∈ (scrapeLoop allowed detailOf cat cands).1, allowed it.origin_url = true := by
  induction cands with
  | nil => intro it hit; simp [scrapeLoop] at hit
  | cons c rest ih =>
    intro it hit
    simp only [scrapeLoop] at hit
    by_cases ha : allowed c.origin_url
    · simp only [ha, if_true] at hit
      cases hd : detailOf c.origin_url with
      | ok d =>
        rw [hd] at hit
        simp only [List.mem_cons] at hit
        rcases hit with rfl | hit
        · exact ha
        · exact ih it hit
      | err e =>
        rw [hd] at hit
        exact ih it hit
    · simp only [ha, if_false] at hit
      exact ih it hit

/-- The number of collected items counts exactly the allowed candidates
whose detail fetch-and-parse succeeded. -/
theorem scrapeLoop_length (allowed : Str → Bool) (detailOf : Str → PRes)
    (cat : Str) (cands : List Candidate) :
    (scrapeLoop allowed detailOf cat cands).1.length
      = (cands.filter fun c => allowed c.origin_url && isOkP (detailOf c.origin_url)).length := by
  induction cands with
  | nil => simp [scrapeLoop]
  | cons c rest ih =>
    simp only [scrapeLoop, List.filter]
    by_cases ha : allowed c.origin_url
    · simp only [ha, if_true, Bool.true_and]
      cases hd : detailOf c.origin_url with
      | ok d => simp [isOkP, List.length_cons, ih]
      | err e => simp [isOkP, ih]
    · simp only [ha, if_false, Bool.false_and]
      simpa using ih

/-- C8: a candidate URL disallowed by the robots policy never reaches the
fetch step, never yields an item, and contributes nothing to the run's
scanned count (which counts exactly the allowed candidates whose detail
step succeeded). -/
theorem c8_robots_disallowed_skipped (allowed : Str → Bool) (detailOf : Str → PRes)
    (cat : Str) (cands : List Candidate) (u : Str) (hdis : allowed u = false) :
    u ∉ (scrapeLoop allowed detailOf cat cands).2
    ∧ (∀ it ∈ (scrapeLoop allowed detailOf cat cands).1, it.origin_url ≠ u)
    ∧ (scrapeLoop allowed detailOf cat cands).1.length
      = (cands.filter fun c => allowed c.origin_url && isOkP (detailOf c.origin_url)).length := by
  refine ⟨?_, ?_, scrapeLoop_length allowed detailOf cat cands⟩
  · intro hin
    have := scrapeLoop_fetched_allowed allowed detailOf cat cands u hin
    rw [hdis] at this
    exact Bool.false_ne_true this
  · intro it hit heq
    have := scrapeLoop_items_allowed allowed detailOf cat cands it hit
    rw [heq, hdis] at this
    exact Bool.false_ne_true this

theorem c8_witness :
    (fun v => !(v == "/x".data)) "/x".data = false
    ∧ "/x".data ∉ (scrapeLoop (fun v => !(v == "/x".data))
        (fun _ => .ok ⟨"T".data, none, none, "B".data⟩) "extraliga".data
        [⟨"/x".data, none⟩, ⟨"/y".data, none⟩]).2 :=
  ⟨by decide,
    (c8_robots_disallowed_skipped (fun v => !(v == "/x".data))
      (fun _ => .ok ⟨"T".data, none, none, "B".data⟩) "extraliga".data
      [⟨"/x".data, none⟩, ⟨"/y".data, none⟩] "/x".data (by decide)).1⟩

/-- The dedupe pass returns a subsequence of its input. -/
theorem dedupe_sublist : ∀ (l : List Candidate) (seen : List Str),
    List.Sublist (dedupeKeepFirst l seen) l := by
  intro l
  induction l with
  | nil => intro seen; simp [dedupeKeepFirst]
  | cons c rest ih =>
    intro seen
    simp only [dedupeKeepFirst]
    by_cases h : c.origin_url ∈ seen
    · simp only [h, if_true]
      exact (ih seen).trans (List.sublist_cons_self c rest)
    · simp only [h, if_false]
      exact (ih (c.origin_url :: seen)).cons₂ c

/-- The dedupe pass yields pairwise-distinct origin URLs and avoids every
URL already recorded as seen. -/
theorem dedupe_nodup : ∀ (l : List Candidate) (seen : List Str),
    ((dedupeKeepFirst l seen).map Candidate.origin_url).Nodup
    ∧ (∀ u ∈ seen, u ∉ (dedupeKeepFirst l seen).map Candidate.origin_url) := by
  intro l
  induction l with
  | nil => intro seen; simp [dedupeKeepFirst]
  | cons c rest ih =>
    intro seen
    simp only [dedupeKeepFirst]
    by_cases h : c.origin_url ∈ seen
    · simp only [h, if_true]
      exact ih seen
    · simp only [h, if_false, List.map_cons, List.nodup_cons]
      obtain ⟨hnd, hav⟩ := ih (c.origin_url :: seen)
      refine ⟨⟨hav c.origin_url (List.mem_cons_self _ _), hnd⟩, ?_⟩
      intro u hu
      simp only [List.mem_cons]
      push_neg
      constructor
      · rintro rfl; exact h hu
      · exact hav u (List.mem_cons_of_mem _ hu)

/-- Every origin URL present in the input survives the dedupe pass unless
it was already seen. -/
theorem dedupe_complete : ∀ (l : List Candidate) (seen : List Str) (u : Str),
    u ∈ l.map Candidate.origin_url →
    u ∈ seen ∨ u ∈ (dedupeKeepFirst l seen).map Candidate.origin_url := by
  intro l
  induction l with
  | nil => intro seen u hu; simp at hu
  | cons c rest ih =>
    intro seen u hu
    simp only [List.map_cons, List.mem_cons] at hu
    simp only [dedupeKeepFirst]
    by_cases h : c.origin_url ∈ seen
    · simp only [h, if_true]
      rcases hu with rfl | hu
      · exact Or.inl h
      · exact ih seen u hu
    · simp only [h, if_false, List.map_cons]
      rcases hu with rfl | hu
      · exact Or.inr (List.mem_cons_self _ _)
      · rcases ih (c.origin_url :: seen) u hu with hs | hr
        · rcases List.mem_cons.1 hs with rfl | hs
          · exact Or.inr (List.mem_cons_self _ _)
          · exact Or.inl hs
        · exact Or.inr (List.mem_cons_of_mem _ hr)

/-- C1: the extractor returns candidates in document order, each origin URL
at most once with the first occurrence kept (every candidate URL is still
present after dedupe, before the cap), and the result is capped at the
configured per-run maximum, 10 by default; listing tiles `[A, B, A, C]`
yield exactly `[A, B, C]` in that order. -/
theorem c1_listing_order_dedupe_cap :
    (∀ (anchors : List Anchor) (m : Nat), (extractListingWith anchors m).length ≤ m)
    ∧ (∀ anchors : List Anchor, (extract_listing_items anchors).length ≤ 10)
    ∧ (∀ anchors : List Anchor,
        ((extract_listing_items anchors).map Candidate.origin_url).Nodup)
    ∧ (∀ anchors : List Anchor,
        List.Sublist (extract_listing_items anchors) (candidatesOf anchors))
    ∧ (∀ (anchors : List Anchor) (u : Str),
        u ∈ (candidatesOf anchors).map Candidate.origin_url →
        u ∈ (dedupeKeepFirst (candidatesOf anchors) []).map Candidate.origin_url)
    ∧ ((extract_listing_items
          [⟨"/sk/article/a".data, none, true, true⟩,
           ⟨"/sk/article/b".data, none, true, true⟩,
           ⟨"/sk/article/a".data, none, true, true⟩,
           ⟨"/sk/article/c".data, none, true, true⟩]).map Candidate.origin_url
        = [BASEurl ++ "/sk/article/a".data, BASEurl ++ "/sk/article/b".data,
           BASEurl ++ "/sk/article/c".data]) := by
  refine ⟨?_, ?_, ?_, ?_, ?_, by decide⟩
  · intro anchors m
    exact List.length_take_le m _
  · intro anchors
    exact List.length_take_le 10 _
  · intro anchors
    exact ((dedupe_nodup (candidatesOf anchors) []).1).sublist
      ((List.take_sublist _ _).map Candidate.origin_url)
  · intro anchors
    exact (List.take_sublist _ _).trans (dedupe_sublist (candidatesOf anchors) [])
  · intro anchors u hu
    rcases dedupe_complete (candidatesOf anchors) [] u hu with hs | hr
    · simp at hs
    · exact hr

theorem c1_witness :
    (BASEurl ++ artPre ++ "z".data)
      ∈ (candidatesOf [⟨"/sk/article/z".data, none, true, true⟩]).map Candidate.origin_url
    ∧ (BASEurl ++ artPre ++ "z".data)
      ∈ (dedupeKeepFirst (candidatesOf [⟨"/sk/article/z".data, none, true, true⟩]) []).map
          Candidate.origin_url :=
  ⟨by decide,
    c1_listing_order_dedupe_cap.2.2.2.2.1 [⟨"/sk/article/z".data, none, true, true⟩]
      (BASEurl ++ artPre ++ "z".data) (by decide)⟩

/-- C9 as stated is false: the extractor's only URL filter is the
`/sk/article/` path-prefix check.  An anchor whose href is exactly
`/sk/article/` (an empty slug, which any minimum-slug-length check — here
instantiated with the weakest possible minimum, 1 — must reject) is still
emitted as a candidate. -/
theorem c9_counterexample :
    ((extract_listing_items [⟨"/sk/article/".data, none, true, true⟩]).map
        Candidate.origin_url = [BASEurl ++ artPre])
    ∧ isLikelyArticleUrl_spec 1 [] (BASEurl ++ artPre) = false := by
  exact ⟨by decide, by decide⟩

theorem prefixOfIff {l₁ l₂ : Str} : l₁.isPrefixOf l₂ = true ↔ List.IsPrefix l₁ l₂ :=
  List.isPrefixOf_iff_prefix

/-- Any candidate built by `mkCandidate` carries an origin URL under the
site's `/sk/article/` path. -/
theorem mkCandidate_origin {a : Anchor} {c : Candidate} (h : mkCandidate a = some c) :
    (BASEurl ++ artPre).isPrefixOf c.origin_url = true := by
  unfold mkCandidate at h
  by_cases hp : artPre.isPrefixOf (pyStrip a.href)
  · simp only [hp, if_true, Option.some.injEq] at h
    obtain ⟨t, ht⟩ := prefixOfIff.1 hp
    have ht' : pyStrip a.href = '/' :: ("sk/article/".data ++ t) := by
      rw [← ht]; rfl
    rw [← h]
    rw [prefixOfIff]
    refine ⟨t, ?_⟩
    show (BASEurl ++ artPre) ++ t = urljoinBase (pyStrip a.href)
    rw [ht']
    rw [List.append_assoc]
    rfl
  · simp [hp] at h

/-- C9 (amended): the only URL-shape filter `extract_listing_items`
applies is the `/sk/article/` path-prefix check — every emitted candidate's
origin URL lies under `BASE ++ "/sk/article/"`, and no minimum-slug-length
or denylist check is performed. -/
theorem c9_prefix_filter_only (anchors : List Anchor) (c : Candidate)
    (hc : c ∈ extract_listing_items anchors) :
    (BASEurl ++ artPre).isPrefixOf c.origin_url = true := by
  have h1 : c ∈ candidatesOf anchors :=
    (((List.take_sublist _ _).trans (dedupe_sublist _ [])).mem hc)
  simp only [candidatesOf] at h1
  split at h1 <;>
  · obtain ⟨a, _, ha⟩ := List.mem_filterMap.1 h1
    exact mkCandidate_origin ha

theorem c9_witness :
    (⟨BASEurl ++ artPre ++ "z".data, none⟩ : Candidate)
      ∈ extract_listing_items [⟨"/sk/article/z".data, none, true, true⟩]
    ∧ (BASEurl ++ artPre).isPrefixOf (BASEurl ++ artPre ++ "z".data) = true :=
  ⟨by decide,
    c9_prefix_filter_only [⟨"/sk/article/z".data, none, true, true⟩]
      ⟨BASEurl ++ artPre ++ "z".data, none⟩ (by decide)⟩

/-! ## Idempotence of `clean_text`

The four stages of `clean_text` are analysed separately: each stage's
output satisfies an invariant (no carriage returns; no tabs and no adjacent
blanks; no triple newlines; stripped) on which every later stage — and a
second application of the same stage — acts as the identity. -/

/-- No two adjacent characters are both `[ \t]`-blank. -/
def noAdjSp (l : Str) : Prop :=
  List.Chain' (fun a b => ¬(isBlankChar a = true ∧ isBlankChar b = true)) l

/-- No three consecutive newlines occur. -/
def noTripleNL (l : Str) : Prop := ¬ List.IsInfix ['\n', '\n', '\n'] l

theorem noAdjSp_nil : noAdjSp [] := List.chain'_nil

theorem noAdjSp_tail {c : Char} {l : Str} (h : noAdjSp (c :: l)) : noAdjSp l :=
  (List.chain'_cons'.1 h).2

theorem noTripleNL_tail {c : Char} {l : Str} (h : noTripleNL (c :: l)) : noTripleNL l := by
  intro ⟨s, t, hst⟩
  exact h ⟨c :: s, t, by simp [hst]⟩

theorem noTripleNL_cons {c : Char} {l : Str} (hl : noTripleNL l)
    (hhead : c = '\n' → ∀ r, l ≠ '\n' :: '\n' :: r) : noTripleNL (c :: l) := by
  rintro ⟨s, t, hst⟩
  cases s with
  | nil =>
    simp only [List.nil_append, List.cons_append] at hst
    obtain ⟨hc, hl'⟩ := List.cons.inj hst
    exact hhead hc.symm t (by simp [← hl'])
  | cons a s' =>
    simp only [List.cons_append] at hst
    exact hl ⟨s', t, (List.cons.inj hst).2⟩

/-- The newline normalizer never emits a carriage return. -/
theorem normNLAux_no_cr : ∀ (l : Str) (b : Bool), '\r' ∉ normNLAux b l := by
  intro l
  induction l with
  | nil => intro b h; simp [normNLAux] at h
  | cons c rest ih =>
    intro b h
    simp only [normNLAux] at h
    by_cases hr : c = '\r'
    · simp only [hr, if_true, List.mem_cons] at h
      rcases h with h | h
      · exact absurd h.symm (by decide)
      · exact ih true h
    · simp only [hr, if_false] at h
      by_cases hn : c = '\n'
      · simp only [hn, if_true] at h
        cases b with
        | true =>
          rw [if_pos rfl] at h
          exact ih false h
        | false =>
          rw [if_neg (by simp)] at h
          rcases List.mem_cons.1 h with h | h
          · exact absurd h.symm (by decide)
          · exact ih false h
      · simp only [hn, if_false, List.mem_cons] at h
        rcases h with h | h
        · exact hr h.symm
        · exact ih false h

/-- On carriage-return-free input the newline normalizer is the identity. -/
theorem normNLAux_id : ∀ l : Str, '\r' ∉ l → normNLAux false l = l := by
  intro l
  induction l with
  | nil => intro _; rfl
  | cons c rest ih =>
    intro h
    have hr : c ≠ '\r' := fun hc => h (hc ▸ List.mem_cons_self c rest)
    have hrest : '\r' ∉ rest := fun hm => h (List.mem_cons_of_mem c hm)
    simp only [normNLAux, hr, if_false]
    by_cases hn : c = '\n'
    · simp only [hn, if_true, Bool.false_eq_true, if_false]
      rw [ih hrest]
    · simp only [hn, if_false]
      rw [ih hrest]

/-- Characters emitted by the space collapser are spaces or input
characters. -/
theorem collapseSpacesAux_mem : ∀ (l : Str) (b : Bool) (x : Char),
    x ∈ collapseSpacesAux b l → x = ' ' ∨ x ∈ l := by
  intro l
  induction l with
  | nil => intro b x h; simp [collapseSpacesAux] at h
  | cons c rest ih =>
    intro b x h
    simp only [collapseSpacesAux] at h
    by_cases hb : isBlankChar c
    · simp only [hb, if_true] at h
      cases b with
      | true =>
        rw [if_pos rfl] at h
        rcases ih true x h with h' | h'
        · exact Or.inl h'
        · exact Or.inr (List.mem_cons_of_mem c h')
      | false =>
        rw [if_neg (by simp)] at h
        rcases List.mem_cons.1 h with h | h
        · exact Or.inl h
        · rcases ih true x h with h' | h'
          · exact Or.inl h'
          · exact Or.inr (List.mem_cons_of_mem c h')
    · simp only [hb, Bool.false_eq_true, if_false, List.mem_cons] at h
      rcases h with h | h
      · exact Or.inr (h ▸ List.mem_cons_self c rest)
      · rcases ih false x h with h' | h'
        · exact Or.inl h'
        · exact Or.inr (List.mem_cons_of_mem c h')

/-- The space collapser never emits a tab. -/
theorem collapseSpacesAux_no_tab : ∀ (l : Str) (b : Bool), '\t' ∉ collapseSpacesAux b l := by
  intro l
  induction l with
  | nil => intro b h; simp [collapseSpacesAux] at h
  | cons c rest ih =>
    intro b h
    simp only [collapseSpacesAux] at h
    by_cases hb : isBlankChar c
    · simp only [hb, if_true] at h
      cases b with
      | true =>
        rw [if_pos rfl] at h
        exact ih true h
      | false =>
        rw [if_neg (by simp)] at h
        rcases List.mem_cons.1 h with h' | h'
        · exact absurd h' (by decide)
        · exact ih true h'
    · simp only [hb, Bool.false_eq_true, if_false] at h
      rcases List.mem_cons.1 h with h' | h'
      · rw [← h'] at hb
        exact hb (by decide)
      · exact ih false h'

/-- After a blank run the collapser's next emitted character is not blank. -/
theorem collapseSpacesAux_head : ∀ (l : Str) (y : Char) (t : Str),
    collapseSpacesAux true l = y :: t → isBlankChar y = false := by
  intro l
  induction l with
  | nil => intro y t h; simp [collapseSpacesAux] at h
  | cons c rest ih =>
    intro y t h
    simp only [collapseSpacesAux] at h
    by_cases hb : isBlankChar c
    · simp only [hb, if_true] at h
      exact ih y t h
    · simp only [hb, Bool.false_eq_true, if_false] at h
      obtain ⟨rfl, -⟩ := List.cons.inj h
      exact Bool.not_eq_true _ ▸ (Bool.eq_false_iff.2 hb)

/-- The collapser's output never contains two adjacent blanks. -/
theorem collapseSpacesAux_noAdjSp : ∀ (l : Str) (b : Bool),
    noAdjSp (collapseSpacesAux b l) := by
  intro l
  induction l with
  | nil => intro b; simp [collapseSpacesAux, noAdjSp]
  | cons c rest ih =>
    intro b
    simp only [collapseSpacesAux]
    by_cases hb : isBlankChar c
    · simp only [hb, if_true]
      cases b with
      | true =>
        rw [if_pos rfl]
        exact ih true
      | false =>
        rw [if_neg (by simp)]
        refine List.chain'_cons'.2 ⟨?_, ih true⟩
        intro y hy
        cases hxs : collapseSpacesAux true rest with
        | nil => rw [hxs] at hy; simp at hy
        | cons z zs =>
          rw [hxs] at hy
          simp only [List.head?_cons, Option.mem_def, Option.some.injEq] at hy
          rw [← hy]
          intro ⟨_, hz⟩
          exact absurd (collapseSpacesAux_head rest z zs hxs) (by simp [hz])
    · simp only [hb, Bool.false_eq_true, if_false]
      refine List.chain'_cons'.2 ⟨?_, ih false⟩
      intro y _
      intro ⟨hc, _⟩
      exact absurd hc (by simp [hb])

/-- On tab-free input with no adjacent blanks (and, when the collapser is
mid-run, a non-blank head) the space collapser is the identity. -/
theorem collapseSpacesAux_id : ∀ (l : Str) (b : Bool), '\t' ∉ l → noAdjSp l →
    (b = true → ∀ y t, l = y :: t → isBlankChar y = false) →
    collapseSpacesAux b l = l := by
  intro l
  induction l with
  | nil => intro b _ _ _; rfl
  | cons c rest ih =>
    intro b htab hadj hhead
    have hctab : c ≠ '\t' := fun hc => htab (hc ▸ List.mem_cons_self c rest)
    have hrtab : '\t' ∉ rest := fun hm => htab (List.mem_cons_of_mem c hm)
    simp only [collapseSpacesAux]
    by_cases hb : isBlankChar c
    · have hsp : c = ' ' := by
        have hb' := hb
        simp only [isBlankChar, Bool.or_eq_true, beq_iff_eq] at hb'
        rcases hb' with h | h
        · exact h
        · exact absurd h hctab
      have hbf : b = false := by
        cases b with
        | false => rfl
        | true => exact absurd (hhead rfl c rest rfl) (by simp [hb])
      subst hbf
      simp only [hb, if_true]
      rw [if_neg (by simp)]
      rw [hsp]
      congr 1
      refine ih true hrtab (noAdjSp_tail hadj) ?_
      intro _ y t hyt
      have hR := (List.chain'_cons'.1 hadj).1 y (by rw [hyt]; simp)
      cases hYb : isBlankChar y with
      | false => rfl
      | true => exact absurd ⟨hb, hYb⟩ hR
    · simp only [hb, Bool.false_eq_true, if_false]
      rw [ih false hrtab (noAdjSp_tail hadj) (by intro h; cases h)]

/-- Characters emitted by the newline collapser come from its input. -/
theorem collapseNLAux_mem : ∀ (l : Str) (k : Nat) (x : Char),
    x ∈ collapseNLAux k l → x ∈ l := by
  intro l
  induction l with
  | nil => intro k x h; simp [collapseNLAux] at h
  | cons c rest ih =>
    intro k x h
    simp only [collapseNLAux] at h
    by_cases hn : c = '\n'
    · rw [if_pos hn] at h
      by_cases hk : k < 2
      · rw [if_pos hk] at h
        rcases List.mem_cons.1 h with h' | h'
        · rw [h', ← hn]; exact List.mem_cons_self _ _
        · exact List.mem_cons_of_mem c (ih (k + 1) x h')
      · rw [if_neg hk] at h
        exact List.mem_cons_of_mem c (ih k x h)
    · rw [if_neg hn] at h
      rcases List.mem_cons.1 h with h' | h'
      · rw [h']; exact List.mem_cons_self _ _
      · exact List.mem_cons_of_mem c (ih 0 x h')

/-- With two newlines already emitted, the collapser's next character is
not a newline. -/
theorem collapseNLAux_headGe2 : ∀ (l : Str) (k : Nat), 2 ≤ k →
    ∀ r : Str, collapseNLAux k l ≠ '\n' :: r := by
  intro l
  induction l with
  | nil => intro k _ r h; simp [collapseNLAux] at h
  | cons c rest ih =>
    intro k hk r h
    simp only [collapseNLAux] at h
    by_cases hn : c = '\n'
    · rw [if_pos hn, if_neg (by omega)] at h
      exact ih k hk r h
    · rw [if_neg hn] at h
      exact hn (List.cons.inj h).1

/-- With one newline already emitted, the collapser never emits two more in
a row. -/
theorem collapseNLAux_head1 : ∀ (l : Str) (r : Str),
    collapseNLAux 1 l ≠ '\n' :: '\n' :: r := by
  intro l r h
  cases l with
  | nil => simp [collapseNLAux] at h
  | cons c rest =>
    simp only [collapseNLAux] at h
    by_cases hn : c = '\n'
    · rw [if_pos hn, if_pos (by omega)] at h
      exact collapseNLAux_headGe2 rest 2 (le_refl 2) r (List.cons.inj h).2
    · rw [if_neg hn] at h
      exact hn (List.cons.inj h).1

/-- With the counter reset, the collapser emits the head unchanged. -/
theorem collapseNLAux_head0 (d : Char) (r : Str) :
    ∃ t, collapseNLAux 0 (d :: r) = d :: t := by
  simp only [collapseNLAux]
  by_cases hn : d = '\n'
  · rw [if_pos hn, if_pos (by omega)]
    exact ⟨collapseNLAux 1 r, by rw [hn]⟩
  · rw [if_neg hn]
    exact ⟨collapseNLAux 0 r, rfl⟩

/-- The newline collapser's output has no three consecutive newlines. -/
theorem collapseNLAux_noTriple : ∀ (l : Str) (k : Nat),
    noTripleNL (collapseNLAux k l) := by
  intro l
  induction l with
  | nil =>
    intro k
    rintro ⟨s, t, hst⟩
    simp [collapseNLAux] at hst
  | cons c rest ih =>
    intro k
    simp only [collapseNLAux]
    by_cases hn : c = '\n'
    · by_cases hk : k < 2
      · rw [if_pos hn, if_pos hk]
        refine noTripleNL_cons (ih (k + 1)) ?_
        intro _ r hr
        interval_cases k
        · exact collapseNLAux_head1 rest r hr
        · exact collapseNLAux_headGe2 rest 2 (le_refl 2) ('\n' :: r) hr
      · rw [if_pos hn, if_neg hk]
        exact ih k
    · rw [if_neg hn]
      exact noTripleNL_cons (ih 0) (fun hc => absurd hc hn)

/-- The newline collapser preserves the absence of adjacent blanks. -/
theorem collapseNLAux_noAdjSp : ∀ (l : Str) (k : Nat),
    noAdjSp l → noAdjSp (collapseNLAux k l) := by
  intro l
  induction l with
  | nil => intro k _; simp [collapseNLAux, noAdjSp]
  | cons c rest ih =>
    intro k h
    simp only [collapseNLAux]
    by_cases hn : c = '\n'
    · by_cases hk : k < 2
      · rw [if_pos hn, if_pos hk]
        refine List.chain'_cons'.2 ⟨?_, ih (k + 1) (noAdjSp_tail h)⟩
        intro y _
        rintro ⟨hc, -⟩
        exact absurd hc (by decide)
      · rw [if_pos hn, if_neg hk]
        exact ih k (noAdjSp_tail h)
    · rw [if_neg hn]
      refine List.chain'_cons'.2 ⟨?_, ih 0 (noAdjSp_tail h)⟩
      intro y hy
      cases rest with
      | nil => simp [collapseNLAux] at hy
      | cons d r =>
        obtain ⟨t, ht⟩ := collapseNLAux_head0 d r
        rw [ht] at hy
        simp only [List.head?_cons, Option.mem_def, Option.some.injEq] at hy
        rw [← hy]
        exact (List.chain'_cons'.1 h).1 d (by simp)

/-- On input with no triple newlines (and run-state assumptions matching
the counter) the newline collapser is the identity. -/
theorem collapseNLAux_id : ∀ (l : Str) (k : Nat), noTripleNL l →
    (k = 1 → ∀ r, l ≠ '\n' :: '\n' :: r) →
    (2 ≤ k → ∀ r, l ≠ '\n' :: r) →
    collapseNLAux k l = l := by
  intro l
  induction l with
  | nil => intro k _ _ _; rfl
  | cons c rest ih =>
    intro k hT h1 h2
    simp only [collapseNLAux]
    by_cases hn : c = '\n'
    · by_cases hk : k < 2
      · rw [if_pos hn, if_pos hk, hn]
        congr 1
        refine ih (k + 1) (noTripleNL_tail hT) ?_ ?_
        · intro hk1 r hr
          exact hT ⟨[], r, by simp [hn, hr]⟩
        · intro _ r hr
          have hk1 : k = 1 := by omega
          exact h1 hk1 r (by rw [hn, hr])
      · exact absurd (by rw [hn]) (h2 (by omega) rest)
    · rw [if_neg hn]
      congr 1
      exact ih 0 (noTripleNL_tail hT)
        (fun h => absurd h (by norm_num)) (fun h => absurd h (by norm_num))

/-- The head of a non-trivial `dropWhile` result fails the predicate. -/
theorem dropWhile_head_not (p : Char → Bool) : ∀ (l : Str) (y : Char) (t : Str),
    l.dropWhile p = y :: t → p y = false := by
  intro l
  induction l with
  | nil => intro y t h; simp at h
  | cons c rest ih =>
    intro y t h
    rw [List.dropWhile_cons] at h
    by_cases hc : p c = true
    · rw [if_pos hc] at h
      exact ih y t h
    · rw [if_neg hc] at h
      obtain ⟨rfl, -⟩ := List.cons.inj h
      exact Bool.eq_false_iff.2 hc

/-- Stripping yields a contiguous slice of the input. -/
theorem pyStrip_infixOf (l : Str) : List.IsInfix (pyStrip l) l := by
  obtain ⟨s, hs⟩ := List.dropWhile_suffix (l := l) isWsChar
  obtain ⟨t, ht⟩ := List.rdropWhile_prefix isWsChar (l.dropWhile isWsChar)
  refine ⟨s, t, ?_⟩
  show s ++ pyStrip l ++ t = l
  rw [List.append_assoc]
  simp only [pyStrip]
  rw [ht, hs]

/-- Python's `strip` is idempotent. -/
theorem pyStrip_idem (l : Str) : pyStrip (pyStrip l) = pyStrip l := by
  have hdw : (pyStrip l).dropWhile isWsChar = pyStrip l := by
    cases hps : pyStrip l with
    | nil => simp
    | cons y t =>
      obtain ⟨t2, ht2⟩ := List.rdropWhile_prefix isWsChar (l.dropWhile isWsChar)
      have hd : l.dropWhile isWsChar = y :: (t ++ t2) := by
        rw [← ht2]
        show pyStrip l ++ t2 = y :: (t ++ t2)
        rw [hps]
        simp
      have hy : isWsChar y = false := dropWhile_head_not isWsChar l y (t ++ t2) hd
      rw [List.dropWhile_cons, if_neg (by simp [hy])]
  have h1 : pyStrip (pyStrip l) = ((pyStrip l).dropWhile isWsChar).rdropWhile isWsChar := rfl
  rw [h1, hdw]
  show ((l.dropWhile isWsChar).rdropWhile isWsChar).rdropWhile isWsChar = pyStrip l
  rw [List.rdropWhile_idempotent]
  rfl

/-- `clean_text` output contains no carriage return. -/
theorem clean_text_no_cr (l : Str) : '\r' ∉ clean_text l := by
  intro h
  have h1 : '\r' ∈ collapseNL (collapseSpaces (normNewlines l)) :=
    (pyStrip_infixOf (collapseNL (collapseSpaces (normNewlines l)))).subset h
  have h2 : '\r' ∈ collapseSpaces (normNewlines l) :=
    collapseNLAux_mem _ 0 '\r' h1
  rcases collapseSpacesAux_mem _ false '\r' h2 with h3 | h3
  · exact absurd h3 (by decide)
  · exact normNLAux_no_cr _ false h3

/-- `clean_text` output contains no tab. -/
theorem clean_text_no_tab (l : Str) : '\t' ∉ clean_text l := by
  intro h
  have h1 : '\t' ∈ collapseNL (collapseSpaces (normNewlines l)) :=
    (pyStrip_infixOf (collapseNL (collapseSpaces (normNewlines l)))).subset h
  have h2 : '\t' ∈ collapseSpaces (normNewlines l) :=
    collapseNLAux_mem _ 0 '\t' h1
  exact collapseSpacesAux_no_tab _ false h2

/-- `clean_text` output has no two adjacent blanks. -/
theorem clean_text_noAdjSp (l : Str) : noAdjSp (clean_text l) :=
  List.Chain'.infix
    (collapseNLAux_noAdjSp _ 0 (collapseSpacesAux_noAdjSp (normNewlines l) false))
    (pyStrip_infixOf _)

/-- `clean_text` output has no three consecutive newlines. -/
theorem clean_text_noTriple (l : Str) : noTripleNL (clean_text l) := fun h =>
  collapseNLAux_noTriple (collapseSpaces (normNewlines l)) 0
    (h.trans (pyStrip_infixOf _))

/-- C10: the text normalization `clean_text` is idempotent — re-normalizing
already-normalized content never changes it. -/
theorem c10_clean_text_idempotent (l : Str) :
    clean_text (clean_text l) = clean_text l := by
  have hcr : '\r' ∉ clean_text l := clean_text_no_cr l
  have htab : '\t' ∉ clean_text l := clean_text_no_tab l
  have hadj : noAdjSp (clean_text l) := clean_text_noAdjSp l
  have htri : noTripleNL (clean_text l) := clean_text_noTriple l
  have h1 : normNewlines (clean_text l) = clean_text l := normNLAux_id _ hcr
  have h2 : collapseSpaces (clean_text l) = clean_text l :=
    collapseSpacesAux_id _ false htab hadj (fun h => absurd h (by norm_num))
  have h3 : collapseNL (clean_text l) = clean_text l :=
    collapseNLAux_id _ 0 htri (fun h => absurd h (by norm_num))
      (fun h => absurd h (by norm_num))
  have h4 : pyStrip (clean_text l) = clean_text l :=
    pyStrip_idem (collapseNL (collapseSpaces (normNewlines l)))
  calc clean_text (clean_text l)
      = pyStrip (collapseNL (collapseSpaces (normNewlines (clean_text l)))) := rfl
    _ = pyStrip (collapseNL (collapseSpaces (clean_text l))) := by rw [h1]
    _ = pyStrip (collapseNL (clean_text l)) := by rw [h2]
    _ = pyStrip (clean_text l) := by rw [h3]
    _ = clean_text l := h4

end Hcszlh
